import Mathlib

/-!
Verification development for the Kayton runtime: the bytecode module and its
verifier (crates/kayton-bytecode), the host value runtime with its
reference-counted handle store and extension registry (crates/kayton-host,
crates/kayton-abi, crates/kayton-api), and the stack VM with its host bridge
(crates/kayton-vm).  Rust structures are embedded shallowly: `HashMap`s become
association lists with identical lookup/insert/remove semantics, `i64` becomes
`Int` with explicit two's-complement wrapping where the machine arithmetic can
overflow, fallible operations return `Except`, and `&mut self` methods are
state-passing functions.
-/

set_option autoImplicit false

namespace Kayton

/-- Constants of a bytecode module (`Constant` in crates/kayton-bytecode).
`i64` payloads are embedded as `Int`. -/
inductive Constant where
  | Int (v : Int)
  | Bool (b : Bool)
  | String (s : String)
  | Unit
  deriving DecidableEq

/-- Bytecode instructions (`Instruction` in crates/kayton-bytecode).
`CallHost` and `CallHostDynamic` are Modelled from the spec: the
host-integrated variant of the bytecode crate is not in the tree (only the
host-free variant is), while its callers in crates/kayton-vm (`Vm::run`) and
crates/kayton-emitter-bc construct and match exactly
`CallHost(slot, argc)` and `CallHostDynamic(name_const_id, argc)` as the
spec lists them.  All index operands (`ConstId = u32`, local slots `u16`,
`FunctionId = u32`, jump targets `usize`, `HostSlot`) are embedded as `Nat`. -/
inductive Instruction where
  | LoadConst (id : Nat)
  | LoadLocal (idx : Nat)
  | StoreLocal (idx : Nat)
  | Jump (target : Nat)
  | JumpIfFalse (target : Nat)
  | Add
  | Sub
  | Mul
  | Div
  | Neg
  | Not
  | Eq
  | Ne
  | Lt
  | Le
  | Gt
  | Ge
  | Call (func : Nat) (argc : Nat)
  | CallHost (slot : Nat) (argc : Nat)
  | CallHostDynamic (nameConst : Nat) (argc : Nat)
  | Return
  | Pop
  deriving DecidableEq

/-- A named global pointing at a constant (`Global` in crates/kayton-bytecode). -/
structure Global where
  name : String
  value : Nat
  deriving DecidableEq

/-- A bytecode function (`Function` in crates/kayton-bytecode). -/
structure Function where
  name : String
  params : Nat
  locals : Nat
  instructions : List Instruction
  deriving DecidableEq

/-- A bytecode module (`BytecodeModule` in crates/kayton-bytecode). -/
structure BytecodeModule where
  constants : List Constant
  globals : List Global
  functions : List Function
  deriving DecidableEq

/-- `BytecodeModule::function_index`: position of the first function with the
given name. -/
def BytecodeModule.function_index (m : BytecodeModule) (name : String) : Option Nat :=
  m.functions.findIdx? (fun f => f.name == name)

/-- `VerificationError` in crates/kayton-bytecode: each variant carries the
index of the offending instruction. -/
inductive VerificationError where
  | BadConstant (instruction : Nat)
  | BadLocal (instruction : Nat)
  | BadFunction (instruction : Nat)
  | BadJump (instruction : Nat)
  deriving DecidableEq

/-- One arm of the verifier loop in `Verifier::verify`: the structural check
applied to the instruction at index `idx` of function `f`.  The `CallHost` and
`CallHostDynamic` arms are Modelled from the spec: the verifier section of the
spec lists checks only for `LoadConst`, `LoadLocal`/`StoreLocal`, `Call` and
`Jump`/`JumpIfFalse`, so the host-call opcodes fall into the unchecked
bucket together with the arithmetic opcodes. -/
def checkInstruction (m : BytecodeModule) (f : Function) (idx : Nat) :
    Instruction → Option VerificationError
  | .LoadConst id =>
    if (m.constants[id]?).isNone then some (.BadConstant idx) else none
  | .LoadLocal l =>
    if f.locals ≤ l then some (.BadLocal idx) else none
  | .StoreLocal l =>
    if f.locals ≤ l then some (.BadLocal idx) else none
  | .Call func _ =>
    if (m.functions[func]?).isNone then some (.BadFunction idx) else none
  | .Jump target =>
    if f.instructions.length ≤ target then some (.BadJump idx) else none
  | .JumpIfFalse target =>
    if f.instructions.length ≤ target then some (.BadJump idx) else none
  | _ => none

/-- The verifier's inner loop over the instructions of one function, starting
at instruction index `idx`; the first failing check aborts with its error. -/
def verifyFrom (m : BytecodeModule) (f : Function) (idx : Nat) :
    List Instruction → Except VerificationError Unit
  | [] => .ok ()
  | instr :: rest =>
    match checkInstruction m f idx instr with
    | some e => .error e
    | none => verifyFrom m f (idx + 1) rest

/-- The verifier's per-function pass. -/
def verifyFunction (m : BytecodeModule) (f : Function) : Except VerificationError Unit :=
  verifyFrom m f 0 f.instructions

/-- The verifier's outer loop over all functions of the module. -/
def verifyFunctions (m : BytecodeModule) : List Function → Except VerificationError Unit
  | [] => .ok ()
  | f :: rest =>
    match verifyFunction m f with
    | .error e => .error e
    | .ok _ => verifyFunctions m rest

/-- `Verifier::verify` in crates/kayton-bytecode. -/
def Verifier.verify (m : BytecodeModule) : Except VerificationError Unit :=
  verifyFunctions m m.functions

/-- The bound the spec demands of a single instruction (§4.F): `LoadConst`
inside the constants list, local indices below `locals`, `Call` to an existing
function, jump targets below the function's instruction count. -/
def InstructionOk (m : BytecodeModule) (f : Function) : Instruction → Prop
  | .LoadConst id => id < m.constants.length
  | .LoadLocal l => l < f.locals
  | .StoreLocal l => l < f.locals
  | .Call func _ => func < m.functions.length
  | .Jump target => target < f.instructions.length
  | .JumpIfFalse target => target < f.instructions.length
  | _ => True

/-- The closed ABI error taxonomy (`KayErrorCode` in crates/kayton-abi). -/
inductive KayErrorCode where
  | GeneralFailure
  | TypeMismatch
  | NotFound
  | AlreadyExists
  | InvalidArgument
  | Panic
  deriving DecidableEq

/-- `KayError` in crates/kayton-abi: an error code with an optional message. -/
structure KayError where
  code : KayErrorCode
  message : Option String
  deriving DecidableEq

/-- `StoredValue` in crates/kayton-host.  `Arc<str>` and `Arc<[u8]>` are
embedded by content as `String` and `List Nat`; a capsule's type-erased
`Arc<dyn Any>` payload is embedded as an opaque token. -/
inductive StoredValue where
  | Int (v : Int)
  | Bool (b : Bool)
  | String (s : String)
  | Bytes (bs : List Nat)
  | Unit
  | Capsule (tag : String) (payload : Nat)
  deriving DecidableEq

/-- `KayValueKind` in crates/kayton-abi: the read-only projection of a stored
value; a capsule projects only its tag. -/
inductive KayValueKind where
  | Int (v : Int)
  | Bool (b : Bool)
  | String (s : String)
  | Bytes (bs : List Nat)
  | Unit
  | Capsule (tag : String)
  deriving DecidableEq

/-- `StoredValue::describe` in crates/kayton-host. -/
def StoredValue.describe : StoredValue → KayValueKind
  | .Int v => .Int v
  | .Bool b => .Bool b
  | .String s => .String s
  | .Bytes bs => .Bytes bs
  | .Unit => .Unit
  | .Capsule tag _ => .Capsule tag

/-- `KayValueInfo` in crates/kayton-abi. -/
structure KayValueInfo where
  kind : KayValueKind
  deriving DecidableEq

/-- `KayCapsuleData` in crates/kayton-abi: tag plus shared payload. -/
structure KayCapsuleData where
  tag : String
  payload : Nat
  deriving DecidableEq

/-- `HandleEntry` in crates/kayton-host: a stored value with its refcount. -/
structure HandleEntry where
  value : StoredValue
  refs : Nat
  deriving DecidableEq

/-- Lookup in the association-list embedding of `HashMap`. -/
def assocLookup {κ ν : Type} [DecidableEq κ] (k : κ) : List (κ × ν) → Option ν
  | [] => none
  | (k', v) :: rest => if k' = k then some v else assocLookup k rest

/-- `HashMap::remove`: drop every binding of the key. -/
def assocErase {κ ν : Type} [DecidableEq κ] (k : κ) : List (κ × ν) → List (κ × ν)
  | [] => []
  | p :: rest => if p.1 = k then assocErase k rest else p :: assocErase k rest

/-- `HashMap::insert`: bind the key, replacing any previous binding. -/
def assocInsert {κ ν : Type} [DecidableEq κ] (k : κ) (v : ν) (m : List (κ × ν)) :
    List (κ × ν) :=
  (k, v) :: assocErase k m

/-- The handle-store half of `ContextInner` in crates/kayton-host:
`handles: Mutex<HashMap<KayRawHandle, HandleEntry>>` as an association list and
`next_handle: AtomicU64` as a counter.  It is split out of the context so that
extension callables, which may perform handle-store ABI calls of their own,
can be embedded as plain functions over this state. -/
structure HandleStore where
  handles : List (Nat × HandleEntry)
  next_handle : Nat
  deriving DecidableEq

/-- `ContextInner::default()` as far as the handle store goes: an empty map
and `AtomicU64::default()`, whose initial value is 0. -/
def HandleStore.default : HandleStore :=
  { handles := [], next_handle := 0 }

/-- `ContextInner::alloc_value`: `fetch_add(1)` on `next_handle` returns the
counter's previous value, which becomes the new handle; the entry is installed
with `refs = 1`. -/
def HandleStore.alloc_value (s : HandleStore) (value : StoredValue) : HandleStore × Nat :=
  let handle := s.next_handle
  ({ handles := assocInsert handle ⟨value, 1⟩ s.handles, next_handle := handle + 1 },
    handle)

/-- `ContextInner::inc_ref`. -/
def HandleStore.inc_ref (s : HandleStore) (handle : Nat) :
    HandleStore × Except KayError Unit :=
  match assocLookup handle s.handles with
  | none => (s, .error ⟨.NotFound, some "handle not found"⟩)
  | some entry =>
    ({ s with handles := assocInsert handle { entry with refs := entry.refs + 1 } s.handles },
      .ok ())

/-- `ContextInner::dec_ref`: missing entry is NotFound, a zero refcount is
GeneralFailure (a double free), and a decrement to zero removes the entry. -/
def HandleStore.dec_ref (s : HandleStore) (handle : Nat) :
    HandleStore × Except KayError Unit :=
  match assocLookup handle s.handles with
  | none => (s, .error ⟨.NotFound, some "handle not found"⟩)
  | some entry =>
    if entry.refs = 0 then
      (s, .error ⟨.GeneralFailure, some "invalid refcount state"⟩)
    else if entry.refs - 1 = 0 then
      ({ s with handles := assocErase handle s.handles }, .ok ())
    else
      ({ s with handles := assocInsert handle { entry with refs := entry.refs - 1 } s.handles },
        .ok ())

/-- `ContextInner::inspect`: read-only projection of the entry's value. -/
def HandleStore.inspect (s : HandleStore) (handle : Nat) : Except KayError KayValueInfo :=
  match assocLookup handle s.handles with
  | none => .error ⟨.NotFound, some "handle not found"⟩
  | some entry => .ok ⟨entry.value.describe⟩

/-- `ContextInner::capsule_data`. -/
def HandleStore.capsule_data (s : HandleStore) (handle : Nat) :
    Except KayError KayCapsuleData :=
  match assocLookup handle s.handles with
  | none => .error ⟨.NotFound, some "handle not found"⟩
  | some entry =>
    match entry.value with
    | .Capsule tag payload => .ok ⟨tag, payload⟩
    | _ => .error ⟨.TypeMismatch, some "value is not a capsule"⟩

/-- `KayExtension` in crates/kayton-api.  The callable is a function from the
handle store and the raw argument handles to an updated store and a handle
result; this lets a callable perform arbitrary handle-store ABI calls
(recursive extension-to-extension calls are beyond the embedding). -/
structure KayExtension where
  name : String
  callable : HandleStore → List Nat → HandleStore × Except KayError Nat
  min_arity : Nat
  max_arity : Option Nat
  doc : String

/-- `ContextInner` in crates/kayton-host: the handle store plus the ordered
extension list and the name-to-slot index. -/
structure ContextInner where
  store : HandleStore
  extensions : List KayExtension
  name_to_slot : List (String × Nat)

/-- `ContextInner::default()`. -/
def ContextInner.default : ContextInner :=
  { store := HandleStore.default, extensions := [], name_to_slot := [] }

/-- `ContextInner::register_extension`: a duplicate name fails AlreadyExists
(with the name as the message) before anything is modified; otherwise the next
slot index is assigned and the descriptor appended. -/
def ContextInner.register_extension (c : ContextInner) (extension : KayExtension) :
    ContextInner × Except KayError Nat :=
  if (assocLookup extension.name c.name_to_slot).isSome then
    (c, .error ⟨.AlreadyExists, some extension.name⟩)
  else
    let slot := c.extensions.length
    ({ c with
        extensions := c.extensions ++ [extension],
        name_to_slot := assocInsert extension.name slot c.name_to_slot },
      .ok slot)

/-- `ContextInner::extension_by_slot`. -/
def ContextInner.extension_by_slot (c : ContextInner) (slot : Nat) :
    Except KayError KayExtension :=
  match c.extensions[slot]? with
  | some extension => .ok extension
  | none => .error ⟨.NotFound, some ("slot " ++ toString slot ++ " not found")⟩

/-- `ContextInner::extension_by_name`: resolve the slot through the name
index, then fetch the descriptor by slot. -/
def ContextInner.extension_by_name (c : ContextInner) (name : String) :
    Except KayError (Nat × KayExtension) :=
  match assocLookup name c.name_to_slot with
  | none => .error ⟨.NotFound, some "extension not found"⟩
  | some slot =>
    match c.extension_by_slot slot with
    | .ok extension => .ok (slot, extension)
    | .error e => .error e

/-- `KayExtension::call` in crates/kayton-api: the arity gate.  Fewer
arguments than `min_arity`, or more than a set `max_arity`, fail
InvalidArgument without touching the callable. -/
def KayExtension.call (ext : KayExtension) (s : HandleStore) (args : List Nat) :
    HandleStore × Except KayError Nat :=
  if args.length < ext.min_arity then
    (s, .error ⟨.InvalidArgument,
      some ("expected at least " ++ toString ext.min_arity ++ " arguments")⟩)
  else
    match ext.max_arity with
    | some mx =>
      if mx < args.length then
        (s, .error ⟨.InvalidArgument,
          some ("expected at most " ++ toString mx ++ " arguments")⟩)
      else
        ext.callable s args
    | none => ext.callable s args

/-- Dropping one `KayHandle` wrapper: a `dec_ref` whose error is discarded. -/
def dropRaw (s : HandleStore) (raw : Nat) : HandleStore :=
  (s.dec_ref raw).1

/-- Dropping a `Vec<KayHandle>`: elements are dropped front to back. -/
def dropAll (s : HandleStore) (raws : List Nat) : HandleStore :=
  raws.foldl dropRaw s

/-- The clone loop at the head of `invoke_extension` in crates/kayton-host:
each raw argument is `clone_raw`ed (an `inc_ref`); if one fails, the wrappers
built so far are dropped (releasing their references) and the error is
returned.  `cloned` accumulates the already-cloned raws in reverse order. -/
def cloneArgs (s : HandleStore) (cloned : List Nat) :
    List Nat → HandleStore × Except KayError (List Nat)
  | [] => (s, .ok cloned.reverse)
  | raw :: rest =>
    match s.inc_ref raw with
    | (s1, .ok _) => cloneArgs s1 (raw :: cloned) rest
    | (s1, .error e) => (dropAll s1 cloned.reverse, .error e)

/-- `invoke_extension` in crates/kayton-host: clone the argument handles for
the callee, run the extension through its arity gate, keep the result
handle's reference (`mem::forget`), and drop the argument clones. -/
def ContextInner.invoke_extension (c : ContextInner) (extension : KayExtension)
    (args : List Nat) : ContextInner × Except KayError Nat :=
  match cloneArgs c.store [] args with
  | (s1, .error e) => ({ c with store := s1 }, .error e)
  | (s1, .ok handles) =>
    match extension.call s1 handles with
    | (s2, .error e) => ({ c with store := dropAll s2 handles }, .error e)
    | (s2, .ok resultRaw) => ({ c with store := dropAll s2 handles }, .ok resultRaw)

/-- The vtable's `call_host` entry in crates/kayton-host: resolve the slot,
then invoke the extension. -/
def ContextInner.call_host (c : ContextInner) (slot : Nat) (args : List Nat) :
    ContextInner × Except KayError Nat :=
  match c.extension_by_slot slot with
  | .error e => (c, .error e)
  | .ok extension => c.invoke_extension extension args

/-- The vtable's `call_host_dynamic` entry: resolve by name, then invoke. -/
def ContextInner.call_host_dynamic (c : ContextInner) (name : String) (args : List Nat) :
    ContextInner × Except KayError Nat :=
  match c.extension_by_name name with
  | .error e => (c, .error e)
  | .ok (_, extension) => c.invoke_extension extension args

/-- The VM's native values (`Value` in crates/kayton-vm).  A `Handle` holds
the raw id of a context handle; its `PartialEq` compares raw ids and `Str`
compares text, so the derived equality coincides with the Rust one. -/
inductive Value where
  | Int (v : Int)
  | Bool (b : Bool)
  | Str (s : String)
  | Unit
  | Handle (raw : Nat)
  deriving DecidableEq

/-- `impl PartialEq for Value` in crates/kayton-vm, mirrored arm by arm:
equal variants compare payloads (`Handle` by raw id), different variants are
unequal. -/
def valueEq : Value → Value → Bool
  | .Int lhs, .Int rhs => lhs == rhs
  | .Bool lhs, .Bool rhs => lhs == rhs
  | .Str lhs, .Str rhs => lhs == rhs
  | .Unit, .Unit => true
  | .Handle lhs, .Handle rhs => lhs == rhs
  | _, _ => false

/-- `Value::as_int`. -/
def value_as_int : Value → Option Int
  | .Int v => some v
  | _ => none

/-- `Value::as_bool`. -/
def value_as_bool : Value → Option Bool
  | .Bool b => some b
  | _ => none

/-- `From<&Constant> for Value` in crates/kayton-vm. -/
def Constant.toValue : Constant → Value
  | .Int v => .Int v
  | .Bool b => .Bool b
  | .String s => .Str s
  | .Unit => .Unit

/-- `VmError` in crates/kayton-vm. -/
inductive VmError where
  | EntryNotFound (name : String)
  | BadFunction (id : Nat)
  | BadConstant (id : Nat)
  | HostNameType
  | BadLocal
  | StackUnderflow
  | TypeError (expected : String)
  | CallArity (expected : Nat) (found : Nat)
  | HostFailure (e : KayError)
  deriving DecidableEq

/-- `Frame` in crates/kayton-vm: function id, instruction pointer, locals. -/
structure Frame where
  function : Nat
  ip : Nat
  locals : List Value
  deriving DecidableEq

/-- The interpreter state of `Vm`: value stack, call frames (top of the Rust
`Vec` is the head here), and the borrowed host context. -/
structure VmState where
  stack : List Value
  frames : List Frame
  ctx : ContextInner

/-- Two's-complement reduction of an exact integer into `i64`: the unique
representative of `x` modulo `2^64` inside `[-2^63, 2^63)`.  Rust's `+`, `-`,
`*` and unary `-` on `i64` compute exactly this when built with
`overflow-checks` off (the release profile; a debug build panics instead of
wrapping). -/
def wrap64 (x : Int) : Int :=
  (x + 2 ^ 63) % 2 ^ 64 - 2 ^ 63

/-- `i64::MIN`. -/
def i64_min : Int := -(2 ^ 63)

/-- The outcome of executing one instruction of the `Vm::run` loop: a new
state, the loop's final value, a structured `VmError`, or a Rust panic
(`trap`) from the few places the interpreter indexes or divides unchecked. -/
inductive StepResult where
  | next (st : VmState)
  | done (v : Value)
  | fault (e : VmError)
  | trap (msg : String)

/-- `Vm::call_function`: arity must match the callee's `params` exactly;
locals start as the arguments followed by `Unit` padding.  When the function
declares fewer locals than parameters the Rust loop writing the arguments
indexes out of bounds and panics. -/
def Vm.call_function (m : BytecodeModule) (st : VmState) (func_id : Nat)
    (args : List Value) : StepResult :=
  match m.functions[func_id]? with
  | none => .fault (.BadFunction func_id)
  | some f =>
    if f.params ≠ args.length then
      .fault (.CallArity f.params args.length)
    else if f.locals < args.length then
      .trap "index out of bounds"
    else
      .next { st with
        frames := ⟨func_id, 0, args ++ List.replicate (f.locals - args.length) Value.Unit⟩
          :: st.frames }

/-- `Vm::binary_int` followed by `advance_ip`: pop the right operand, then the
left, failing on underflow or a non-`Int`, push `op lhs rhs` and advance. -/
def binaryIntStep (st : VmState) (frame : Frame) (rest : List Frame)
    (op : Int → Int → Int) : StepResult :=
  match st.stack with
  | [] => .fault .StackUnderflow
  | rhsV :: s1 =>
    match value_as_int rhsV with
    | none => .fault (.TypeError "int")
    | some rhs =>
      match s1 with
      | [] => .fault .StackUnderflow
      | lhsV :: s2 =>
        match value_as_int lhsV with
        | none => .fault (.TypeError "int")
        | some lhs =>
          .next { st with
            stack := .Int (op lhs rhs) :: s2,
            frames := { frame with ip := frame.ip + 1 } :: rest }

/-- The `Div` instruction: Rust's `/` on `i64` panics on a zero divisor and on
the one overflowing quotient `i64::MIN / -1` (in every build profile);
otherwise it truncates toward zero, which is `Int.tdiv`. -/
def divIntStep (st : VmState) (frame : Frame) (rest : List Frame) : StepResult :=
  match st.stack with
  | [] => .fault .StackUnderflow
  | rhsV :: s1 =>
    match value_as_int rhsV with
    | none => .fault (.TypeError "int")
    | some rhs =>
      match s1 with
      | [] => .fault .StackUnderflow
      | lhsV :: s2 =>
        match value_as_int lhsV with
        | none => .fault (.TypeError "int")
        | some lhs =>
          if rhs = 0 then .trap "attempt to divide by zero"
          else if lhs = i64_min ∧ rhs = -1 then .trap "attempt to divide with overflow"
          else
            .next { st with
              stack := .Int (Int.tdiv lhs rhs) :: s2,
              frames := { frame with ip := frame.ip + 1 } :: rest }

/-- The six comparison instructions: pop two `Int`s, push a `Bool`. -/
def compareIntStep (st : VmState) (frame : Frame) (rest : List Frame)
    (op : Int → Int → Bool) : StepResult :=
  match st.stack with
  | [] => .fault .StackUnderflow
  | rhsV :: s1 =>
    match value_as_int rhsV with
    | none => .fault (.TypeError "int")
    | some rhs =>
      match s1 with
      | [] => .fault .StackUnderflow
      | lhsV :: s2 =>
        match value_as_int lhsV with
        | none => .fault (.TypeError "int")
        | some lhs =>
          .next { st with
            stack := .Bool (op lhs rhs) :: s2,
            frames := { frame with ip := frame.ip + 1 } :: rest }

/-- Popping `n` values for a `Call`: the popped values in pop order together
with the remaining stack, or `none` on underflow. -/
def popN (stack : List Value) : Nat → Option (List Value × List Value)
  | 0 => some ([], stack)
  | n + 1 =>
    match stack with
    | [] => none
    | v :: rest =>
      match popN rest n with
      | none => none
      | some (vs, remaining) => some (v :: vs, remaining)

/-- `Vm::ensure_handle` in crates/kayton-vm: primitive values are lifted into
fresh handles through the corresponding `alloc_*`; a `Handle` value passes its
raw id through unchanged. -/
def Vm.ensure_handle (s : HandleStore) (v : Value) : HandleStore × Nat :=
  match v with
  | .Int n => s.alloc_value (.Int n)
  | .Bool b => s.alloc_value (.Bool b)
  | .Str str => s.alloc_value (.String str)
  | .Unit => s.alloc_value .Unit
  | .Handle raw => (s, raw)

/-- `Vm::handle_to_value` in crates/kayton-vm: `describe` the handle;
`Int`/`Bool`/`Unit` are destructured into VM values and the handle wrapper is
dropped (releasing its reference); `String`/`Bytes`/`Capsule` stay wrapped as
`Value.Handle`.  On a describe failure the wrapper is likewise dropped and the
ABI error surfaces as `HostFailure`. -/
def Vm.handle_to_value (s : HandleStore) (raw : Nat) :
    HandleStore × Except VmError Value :=
  match s.inspect raw with
  | .error e => (dropRaw s raw, .error (.HostFailure e))
  | .ok info =>
    match info.kind with
    | .Int v => (dropRaw s raw, .ok (.Int v))
    | .Bool b => (dropRaw s raw, .ok (.Bool b))
    | .Unit => (dropRaw s raw, .ok .Unit)
    | .String _ => (s, .ok (.Handle raw))
    | .Bytes _ => (s, .ok (.Handle raw))
    | .Capsule _ => (s, .ok (.Handle raw))

/-- `Vm::collect_host_args`: pop `n` stack values, lifting each to a handle as
it is popped; returns the updated store, the handles in pop order (the caller
reverses them into source order) and the remaining stack. -/
def collect_host_args (s : HandleStore) (stack : List Value) :
    Nat → Option (HandleStore × List Nat × List Value)
  | 0 => some (s, [], stack)
  | n + 1 =>
    match stack with
    | [] => none
    | v :: rest =>
      let (s1, raw) := Vm.ensure_handle s v
      match collect_host_args s1 rest n with
      | none => none
      | some (s2, raws, remaining) => some (s2, raw :: raws, remaining)

/-- `Vm::invoke_host`/`Vm::invoke_host_dynamic` followed by the push and
`advance_ip` in `Vm::run`: lift the arguments, call through the ABI, lower
the returned handle, drop the argument handle wrappers, push the result. -/
def hostInvoke (st : VmState) (frame : Frame) (rest : List Frame) (argc : Nat)
    (call : ContextInner → List Nat → ContextInner × Except KayError Nat) :
    StepResult :=
  match collect_host_args st.ctx.store st.stack argc with
  | none => .fault .StackUnderflow
  | some (s1, raws, remaining) =>
    let args := raws.reverse
    match call { st.ctx with store := s1 } args with
    | (_, .error e) => .fault (.HostFailure e)
    | (c2, .ok resultRaw) =>
      match Vm.handle_to_value c2.store resultRaw with
      | (_, .error e) => .fault e
      | (s3, .ok v) =>
        .next { stack := v :: remaining,
                frames := { frame with ip := frame.ip + 1 } :: rest,
                ctx := { c2 with store := dropAll s3 args } }

/-- One iteration of the `Vm::run` loop in crates/kayton-vm: with no frame
left the loop returns `Unit`; a missing function id, or an instruction
pointer past the end of the function, is `BadFunction`; otherwise the fetched
instruction executes as in the Rust `match`. -/
def Vm.step (m : BytecodeModule) (st : VmState) : StepResult :=
  match st.frames with
  | [] => .done .Unit
  | frame :: rest =>
    match m.functions[frame.function]? with
    | none => .fault (.BadFunction frame.function)
    | some f =>
      match f.instructions[frame.ip]? with
      | none => .fault (.BadFunction frame.function)
      | some instr =>
        match instr with
        | .LoadConst id =>
          let value := ((m.constants[id]?).map Constant.toValue).getD .Unit
          .next { st with
            stack := value :: st.stack,
            frames := { frame with ip := frame.ip + 1 } :: rest }
        | .LoadLocal idx =>
          match frame.locals[idx]? with
          | none => .fault .BadLocal
          | some v =>
            .next { st with
              stack := v :: st.stack,
              frames := { frame with ip := frame.ip + 1 } :: rest }
        | .StoreLocal idx =>
          match st.stack with
          | [] => .fault .StackUnderflow
          | v :: stack1 =>
            if idx < frame.locals.length then
              .next { st with
                stack := stack1,
                frames := { frame with
                  ip := frame.ip + 1,
                  locals := frame.locals.set idx v } :: rest }
            else .fault .BadLocal
        | .Jump target =>
          .next { st with frames := { frame with ip := target } :: rest }
        | .JumpIfFalse target =>
          match st.stack with
          | [] => .fault .StackUnderflow
          | v :: stack1 =>
            match value_as_bool v with
            | none => .fault (.TypeError "bool")
            | some cond =>
              .next { st with
                stack := stack1,
                frames := { frame with
                  ip := if cond then frame.ip + 1 else target } :: rest }
        | .Add => binaryIntStep st frame rest (fun a b => wrap64 (a + b))
        | .Sub => binaryIntStep st frame rest (fun a b => wrap64 (a - b))
        | .Mul => binaryIntStep st frame rest (fun a b => wrap64 (a * b))
        | .Div => divIntStep st frame rest
        | .Neg =>
          match st.stack with
          | [] => .fault .StackUnderflow
          | v :: stack1 =>
            match value_as_int v with
            | none => .fault (.TypeError "int")
            | some n =>
              .next { st with
                stack := .Int (wrap64 (-n)) :: stack1,
                frames := { frame with ip := frame.ip + 1 } :: rest }
        | .Not =>
          match st.stack with
          | [] => .fault .StackUnderflow
          | v :: stack1 =>
            match value_as_bool v with
            | none => .fault (.TypeError "bool")
            | some b =>
              .next { st with
                stack := .Bool (!b) :: stack1,
                frames := { frame with ip := frame.ip + 1 } :: rest }
        | .Eq => compareIntStep st frame rest (fun a b => a == b)
        | .Ne => compareIntStep st frame rest (fun a b => a != b)
        | .Lt => compareIntStep st frame rest (fun a b => a < b)
        | .Le => compareIntStep st frame rest (fun a b => a ≤ b)
        | .Gt => compareIntStep st frame rest (fun a b => b < a)
        | .Ge => compareIntStep st frame rest (fun a b => b ≤ a)
        | .Call func argc =>
          match popN st.stack argc with
          | none => .fault .StackUnderflow
          | some (popped, remaining) =>
            Vm.call_function m { st with stack := remaining } func popped.reverse
        | .CallHost slot argc =>
          hostInvoke st frame rest argc (fun c args => c.call_host slot args)
        | .CallHostDynamic nameConst argc =>
          match m.constants[nameConst]? with
          | none => .fault (.BadConstant nameConst)
          | some c =>
            match c with
            | .String sym =>
              hostInvoke st frame rest argc (fun ctx args => ctx.call_host_dynamic sym args)
            | _ => .fault .HostNameType
        | .Return =>
          let popped : Value × List Value :=
            match st.stack with
            | [] => (.Unit, [])
            | v :: s1 => (v, s1)
          match rest with
          | [] => .done popped.1
          | caller :: rest1 =>
            .next { st with
              stack := popped.1 :: popped.2,
              frames := { caller with ip := caller.ip + 1 } :: rest1 }
        | .Pop =>
          match st.stack with
          | [] => .fault .StackUnderflow
          | _ :: stack1 =>
            .next { st with
              stack := stack1,
              frames := { frame with ip := frame.ip + 1 } :: rest }

/-- The outcome of running the VM to completion (with fuel, an artifact of
the embedding: the Rust loop simply runs until one of the other cases). -/
inductive RunResult where
  | value (v : Value)
  | fault (e : VmError)
  | trap (msg : String)
  | outOfFuel

/-- The `Vm::run` loop iterated under fuel. -/
def Vm.runLoop (m : BytecodeModule) : Nat → VmState → RunResult
  | 0, _ => .outOfFuel
  | fuel + 1, st =>
    match Vm.step m st with
    | .next st1 => Vm.runLoop m fuel st1
    | .done v => .value v
    | .fault e => .fault e
    | .trap msg => .trap msg

/-- `run_module` in crates/kayton-vm: locate the entry function by name
(EntryNotFound on a miss), push its frame with no arguments, then loop. -/
def run_module (m : BytecodeModule) (entry : String) (c : ContextInner) (fuel : Nat) :
    RunResult :=
  match m.function_index entry with
  | none => .fault (.EntryNotFound entry)
  | some entry_id =>
    match Vm.call_function m { stack := [], frames := [], ctx := c } entry_id [] with
    | .next st1 => Vm.runLoop m fuel st1
    | .done v => .value v
    | .fault e => .fault e
    | .trap msg => .trap msg

/-- The VM-bridge round trip of one value: lift it to a handle
(`Vm::ensure_handle`), then lower that handle back (`Vm::handle_to_value`). -/
def bridge_round_trip (s : HandleStore) (v : Value) : HandleStore × Except VmError Value :=
  let (s1, raw) := Vm.ensure_handle s v
  Vm.handle_to_value s1 raw

/-- A JSON document, the target of `serde_json`.  `BytecodeModule::serialize`
is `serde_json::to_vec`; the byte rendering of the document is injective and
parsed back exactly by `serde_json::from_slice`, so the round trip is
settled at the document level. -/
inductive Json where
  | null
  | bool (b : Bool)
  | num (n : Int)
  | str (s : String)
  | arr (elems : List Json)
  | obj (fields : List (String × Json))

/-- Serde's derived encoding of `Constant` (externally tagged: newtype
variants become one-field objects, the unit variant becomes its name). -/
def encodeConstant : Constant → Json
  | .Int v => .obj [("Int", .num v)]
  | .Bool b => .obj [("Bool", .bool b)]
  | .String s => .obj [("String", .str s)]
  | .Unit => .str "Unit"

/-- Serde's derived encoding of `Instruction` (externally tagged: unit
variants become their names, one-field variants one-field objects, two-field
tuple variants objects holding a two-element array). -/
def encodeInstruction : Instruction → Json
  | .LoadConst id => .obj [("LoadConst", .num (id : Int))]
  | .LoadLocal idx => .obj [("LoadLocal", .num (idx : Int))]
  | .StoreLocal idx => .obj [("StoreLocal", .num (idx : Int))]
  | .Jump target => .obj [("Jump", .num (target : Int))]
  | .JumpIfFalse target => .obj [("JumpIfFalse", .num (target : Int))]
  | .Add => .str "Add"
  | .Sub => .str "Sub"
  | .Mul => .str "Mul"
  | .Div => .str "Div"
  | .Neg => .str "Neg"
  | .Not => .str "Not"
  | .Eq => .str "Eq"
  | .Ne => .str "Ne"
  | .Lt => .str "Lt"
  | .Le => .str "Le"
  | .Gt => .str "Gt"
  | .Ge => .str "Ge"
  | .Call func argc => .obj [("Call", .arr [.num (func : Int), .num (argc : Int)])]
  | .CallHost slot argc => .obj [("CallHost", .arr [.num (slot : Int), .num (argc : Int)])]
  | .CallHostDynamic nameConst argc =>
    .obj [("CallHostDynamic", .arr [.num (nameConst : Int), .num (argc : Int)])]
  | .Return => .str "Return"
  | .Pop => .str "Pop"

/-- Serde's derived encoding of `Global`. -/
def encodeGlobal (g : Global) : Json :=
  .obj [("name", .str g.name), ("value", .num (g.value : Int))]

/-- Serde's derived encoding of `Function`. -/
def encodeFunction (f : Function) : Json :=
  .obj [("name", .str f.name), ("params", .num (f.params : Int)),
        ("locals", .num (f.locals : Int)),
        ("instructions", .arr (f.instructions.map encodeInstruction))]

/-- `BytecodeModule::serialize` at the JSON-document level. -/
def BytecodeModule.serialize (m : BytecodeModule) : Json :=
  .obj [("constants", .arr (m.constants.map encodeConstant)),
        ("globals", .arr (m.globals.map encodeGlobal)),
        ("functions", .arr (m.functions.map encodeFunction))]

/-- Decoding an unsigned integer field: serde rejects a negative number for
the unsigned index types. -/
def decodeNat : Json → Option Nat
  | .num n => if n < 0 then none else some n.toNat
  | _ => none

/-- Serde's derived decoding of `Constant`, on canonical documents. -/
def decodeConstant : Json → Option Constant
  | .obj [("Int", .num v)] => some (.Int v)
  | .obj [("Bool", .bool b)] => some (.Bool b)
  | .obj [("String", .str s)] => some (.String s)
  | .str "Unit" => some .Unit
  | _ => none

/-- Decoding a unit variant of `Instruction` from its name string. -/
def decodeInstructionTag (s : String) : Option Instruction :=
  if s = "Add" then some .Add
  else if s = "Sub" then some .Sub
  else if s = "Mul" then some .Mul
  else if s = "Div" then some .Div
  else if s = "Neg" then some .Neg
  else if s = "Not" then some .Not
  else if s = "Eq" then some .Eq
  else if s = "Ne" then some .Ne
  else if s = "Lt" then some .Lt
  else if s = "Le" then some .Le
  else if s = "Gt" then some .Gt
  else if s = "Ge" then some .Ge
  else if s = "Return" then some .Return
  else if s = "Pop" then some .Pop
  else none

/-- Decoding two unsigned operands out of a two-element JSON array. -/
def decodeNatPair (j : Json) : Option (Nat × Nat) :=
  match j with
  | .arr [ja, jb] =>
    match decodeNat ja, decodeNat jb with
    | some na, some nb => some (na, nb)
    | _, _ => none
  | _ => none

/-- Decoding a payload-carrying variant of `Instruction` from its tag and
payload. -/
def decodeInstructionField (tag : String) (j : Json) : Option Instruction :=
  if tag = "LoadConst" then (decodeNat j).map .LoadConst
  else if tag = "LoadLocal" then (decodeNat j).map .LoadLocal
  else if tag = "StoreLocal" then (decodeNat j).map .StoreLocal
  else if tag = "Jump" then (decodeNat j).map .Jump
  else if tag = "JumpIfFalse" then (decodeNat j).map .JumpIfFalse
  else if tag = "Call" then (decodeNatPair j).map (fun p => .Call p.1 p.2)
  else if tag = "CallHost" then (decodeNatPair j).map (fun p => .CallHost p.1 p.2)
  else if tag = "CallHostDynamic" then
    (decodeNatPair j).map (fun p => .CallHostDynamic p.1 p.2)
  else none

/-- Serde's derived decoding of `Instruction`, on canonical documents: a bare
string is a unit variant, a one-field object a payload variant. -/
def decodeInstruction : Json → Option Instruction
  | .str s => decodeInstructionTag s
  | .obj [(tag, payload)] => decodeInstructionField tag payload
  | _ => none

/-- Decoding a homogeneous JSON array element by element. -/
def decodeList {α : Type} (dec : Json → Option α) : List Json → Option (List α)
  | [] => some []
  | j :: rest =>
    match dec j with
    | none => none
    | some a => (decodeList dec rest).map (fun l => a :: l)

/-- Serde's derived decoding of `Global`, on canonical documents. -/
def decodeGlobal : Json → Option Global
  | .obj [("name", .str n), ("value", jv)] => (decodeNat jv).map (fun v => ⟨n, v⟩)
  | _ => none

/-- Serde's derived decoding of `Function`, on canonical documents. -/
def decodeFunction : Json → Option Function
  | .obj [("name", .str n), ("params", jp), ("locals", jl), ("instructions", .arr js)] =>
    match decodeNat jp, decodeNat jl, decodeList decodeInstruction js with
    | some params, some locals, some instrs => some ⟨n, params, locals, instrs⟩
    | _, _, _ => none
  | _ => none

/-- `BytecodeModule::deserialize` at the JSON-document level, on canonical
documents. -/
def BytecodeModule.deserialize : Json → Option BytecodeModule
  | .obj [("constants", .arr cs), ("globals", .arr gs), ("functions", .arr fs)] =>
    match decodeList decodeConstant cs, decodeList decodeGlobal gs,
        decodeList decodeFunction fs with
    | some constants, some globals, some functions => some ⟨constants, globals, functions⟩
    | _, _, _ => none
  | _ => none

/-- The handle stores reachable from a given store by the operations that
touch the map: `alloc_value` (also backing `new_capsule`), `inc_ref` and
`dec_ref`. -/
inductive ReachFrom (s : HandleStore) : HandleStore → Prop where
  | refl : ReachFrom s s
  | alloc (t : HandleStore) (v : StoredValue) :
      ReachFrom s t → ReachFrom s (t.alloc_value v).1
  | inc (t : HandleStore) (h : Nat) :
      ReachFrom s t → ReachFrom s (t.inc_ref h).1
  | dec (t : HandleStore) (h : Nat) :
      ReachFrom s t → ReachFrom s (t.dec_ref h).1

/-- The stores a context can actually be in: reachable from the default
(fresh) store. -/
def Reachable (s : HandleStore) : Prop :=
  ReachFrom HandleStore.default s

/-- A retired handle id: no entry in the map, and below the allocation
counter, so no later `alloc_value` can hand it out again. -/
def Retired (s : HandleStore) (id : Nat) : Prop :=
  assocLookup id s.handles = none ∧ id < s.next_handle

/-- Registering a list of extensions in order, as `KayHost::register_extensions`
does (each error, were one to occur, leaves the context unchanged). -/
def registerAll (c : ContextInner) (exts : List KayExtension) : ContextInner :=
  exts.foldl (fun acc e => (acc.register_extension e).1) c

/-- A demonstration extension used by concrete witnesses: identity on its
sole argument's handle. -/
def demoExt : KayExtension :=
  { name := "demo.first"
    callable := fun s args => (s, .ok (args.headD 0))
    min_arity := 1
    max_arity := some 1
    doc := "returns its first argument" }

/-- A second demonstration extension requiring two arguments. -/
def demoExt2 : KayExtension :=
  { name := "demo.pair"
    callable := fun s args => (s, .ok (args.headD 0))
    min_arity := 2
    max_arity := some 2
    doc := "requires two arguments" }

/-- A verifier-accepted module whose sole function never executes `Return`:
`main` loads a constant and then falls off the end of its instruction list. -/
def demoNoRet : BytecodeModule :=
  { constants := [.Int 1]
    globals := []
    functions := [⟨"main", 0, 0, [.LoadConst 0]⟩] }

/-- The §8 scenario-6 module: a sole function of three instructions starting
with `Jump(99)`. -/
def jmpModule : BytecodeModule :=
  { constants := []
    globals := []
    functions := [⟨"main", 0, 0, [.Jump 99, .Return, .Return]⟩] }

/-- A module for concrete arithmetic witnesses: one function holding `Add`,
one holding `Div`. -/
def demoArithModule : BytecodeModule :=
  { constants := []
    globals := []
    functions := [⟨"add", 0, 0, [.Add]⟩, ⟨"div", 0, 0, [.Div]⟩] }

/-- A state about to execute the `Add` of `demoArithModule` on the operands
`i64::MAX` and `1`, whose exact sum overflows `i64`. -/
def demoAddState : VmState :=
  { stack := [.Int 1, .Int (2 ^ 63 - 1)]
    frames := [⟨0, 0, []⟩]
    ctx := ContextInner.default }

/-- A state about to execute the `Div` of `demoArithModule` on `-7 / 2`,
where truncation toward zero and flooring differ. -/
def demoDivState : VmState :=
  { stack := [.Int 2, .Int (-7)]
    frames := [⟨1, 0, []⟩]
    ctx := ContextInner.default }

/-- A state of `demoNoRet` whose instruction pointer has run past the end of
`main` without a `Return`. -/
def demoEndState : VmState :=
  { stack := [.Int 1]
    frames := [⟨0, 1, []⟩]
    ctx := ContextInner.default }

/-- Every live binding of the store sits below the allocation counter; this is
the invariant that makes handle ids fresh and never reused. -/
def HandlesBounded (s : HandleStore) : Prop :=
  ∀ p ∈ s.handles, p.1 < s.next_handle

theorem assocLookup_insert_self {κ ν : Type} [DecidableEq κ] (k : κ) (v : ν)
    (m : List (κ × ν)) : assocLookup k (assocInsert k v m) = some v := by
  simp [assocInsert, assocLookup]

theorem assocLookup_erase_self {κ ν : Type} [DecidableEq κ] (k : κ)
    (m : List (κ × ν)) : assocLookup k (assocErase k m) = none := by
  induction m with
  | nil => rfl
  | cons p rest ih =>
    by_cases h : p.1 = k
    · simpa [assocErase, h] using ih
    · simpa [assocErase, h, assocLookup] using ih

theorem assocLookup_erase_ne {κ ν : Type} [DecidableEq κ] {k k' : κ} (h : k' ≠ k)
    (m : List (κ × ν)) : assocLookup k (assocErase k' m) = assocLookup k m := by
  induction m with
  | nil => rfl
  | cons p rest ih =>
    have hsymm : k ≠ k' := Ne.symm h
    by_cases hp : p.1 = k'
    · have hpk : p.1 ≠ k := by rw [hp]; exact h
      simp [assocErase, hp, assocLookup, hpk, h, ih]
    · by_cases hk : p.1 = k <;> simp [assocErase, hp, hk, assocLookup, h, hsymm, ih]

theorem assocLookup_insert_ne {κ ν : Type} [DecidableEq κ] {k k' : κ} (h : k' ≠ k)
    (v : ν) (m : List (κ × ν)) :
    assocLookup k (assocInsert k' v m) = assocLookup k m := by
  simp [assocInsert, assocLookup, h, assocLookup_erase_ne h]

theorem assocLookup_mem {κ ν : Type} [DecidableEq κ] {k : κ} {v : ν}
    {m : List (κ × ν)} (h : assocLookup k m = some v) : (k, v) ∈ m := by
  induction m with
  | nil => simp [assocLookup] at h
  | cons p rest ih =>
    obtain ⟨p1, p2⟩ := p
    by_cases hp : p1 = k
    · subst hp
      simp [assocLookup] at h
      subst h
      exact List.mem_cons_self _ _
    · simp only [assocLookup, if_neg hp] at h
      exact List.mem_cons_of_mem _ (ih h)

theorem mem_assocErase {κ ν : Type} [DecidableEq κ] {k : κ} {p : κ × ν}
    {m : List (κ × ν)} (h : p ∈ assocErase k m) : p ∈ m := by
  induction m with
  | nil => simp [assocErase] at h
  | cons q rest ih =>
    by_cases hq : q.1 = k
    · simp only [assocErase, if_pos hq] at h
      exact List.mem_cons_of_mem _ (ih h)
    · simp only [assocErase, if_neg hq] at h
      rcases List.mem_cons.mp h with h1 | h1
      · exact h1 ▸ List.mem_cons_self _ _
      · exact List.mem_cons_of_mem _ (ih h1)

theorem mem_assocInsert {κ ν : Type} [DecidableEq κ] {k : κ} {v : ν} {p : κ × ν}
    {m : List (κ × ν)} (h : p ∈ assocInsert k v m) : p = (k, v) ∨ p ∈ m := by
  rcases List.mem_cons.mp h with h1 | h1
  · exact Or.inl h1
  · exact Or.inr (mem_assocErase h1)

theorem inc_ref_none {s : HandleStore} {h : Nat}
    (hl : assocLookup h s.handles = none) :
    s.inc_ref h = (s, .error ⟨.NotFound, some "handle not found"⟩) := by
  simp [HandleStore.inc_ref, hl]

theorem inc_ref_some {s : HandleStore} {h : Nat} {entry : HandleEntry}
    (hl : assocLookup h s.handles = some entry) :
    s.inc_ref h =
      ({ s with handles := assocInsert h ⟨entry.value, entry.refs + 1⟩ s.handles },
        .ok ()) := by
  simp [HandleStore.inc_ref, hl]

theorem dec_ref_none {s : HandleStore} {h : Nat}
    (hl : assocLookup h s.handles = none) :
    s.dec_ref h = (s, .error ⟨.NotFound, some "handle not found"⟩) := by
  simp [HandleStore.dec_ref, hl]

theorem dec_ref_zero {s : HandleStore} {h : Nat} {entry : HandleEntry}
    (hl : assocLookup h s.handles = some entry) (h0 : entry.refs = 0) :
    s.dec_ref h = (s, .error ⟨.GeneralFailure, some "invalid refcount state"⟩) := by
  simp [HandleStore.dec_ref, hl, h0]

theorem dec_ref_last {s : HandleStore} {h : Nat} {entry : HandleEntry}
    (hl : assocLookup h s.handles = some entry) (h0 : entry.refs ≠ 0)
    (h1 : entry.refs - 1 = 0) :
    s.dec_ref h = ({ s with handles := assocErase h s.handles }, .ok ()) := by
  simp [HandleStore.dec_ref, hl, h0, h1]

theorem dec_ref_many {s : HandleStore} {h : Nat} {entry : HandleEntry}
    (hl : assocLookup h s.handles = some entry) (h0 : entry.refs ≠ 0)
    (h1 : entry.refs - 1 ≠ 0) :
    s.dec_ref h =
      ({ s with handles := assocInsert h ⟨entry.value, entry.refs - 1⟩ s.handles },
        .ok ()) := by
  simp [HandleStore.dec_ref, hl, h0, h1]

theorem handlesBounded_alloc {s : HandleStore} (hb : HandlesBounded s)
    (v : StoredValue) : HandlesBounded (s.alloc_value v).1 := by
  intro p hp
  rcases mem_assocInsert hp with h1 | h1
  · subst h1; simp [HandleStore.alloc_value]
  · have := hb p h1
    simp only [HandleStore.alloc_value]
    omega

theorem handlesBounded_inc {s : HandleStore} (hb : HandlesBounded s) (h : Nat) :
    HandlesBounded (s.inc_ref h).1 := by
  cases hl : assocLookup h s.handles with
  | none => rw [inc_ref_none hl]; exact hb
  | some entry =>
    rw [inc_ref_some hl]
    intro p hp
    rcases mem_assocInsert hp with h1 | h1
    · subst h1
      exact hb (h, entry) (assocLookup_mem hl)
    · exact hb p h1

theorem handlesBounded_dec {s : HandleStore} (hb : HandlesBounded s) (h : Nat) :
    HandlesBounded (s.dec_ref h).1 := by
  cases hl : assocLookup h s.handles with
  | none => rw [dec_ref_none hl]; exact hb
  | some entry =>
    by_cases h0 : entry.refs = 0
    · rw [dec_ref_zero hl h0]; exact hb
    · by_cases h1 : entry.refs - 1 = 0
      · rw [dec_ref_last hl h0 h1]
        intro p hp
        exact hb p (mem_assocErase hp)
      · rw [dec_ref_many hl h0 h1]
        intro p hp
        rcases mem_assocInsert hp with h2 | h2
        · subst h2
          exact hb (h, entry) (assocLookup_mem hl)
        · exact hb p h2

theorem reachFrom_handlesBounded {s t : HandleStore} (h : ReachFrom s t)
    (hb : HandlesBounded s) : HandlesBounded t := by
  induction h with
  | refl => exact hb
  | alloc t v _ ih => exact handlesBounded_alloc ih v
  | inc t hh _ ih => exact handlesBounded_inc ih hh
  | dec t hh _ ih => exact handlesBounded_dec ih hh

theorem reachable_handlesBounded {s : HandleStore} (h : Reachable s) :
    HandlesBounded s :=
  reachFrom_handlesBounded h (by intro p hp; simp [HandleStore.default] at hp)

theorem retired_alloc {s : HandleStore} {id : Nat} (h : Retired s id)
    (v : StoredValue) : Retired (s.alloc_value v).1 id := by
  obtain ⟨hnone, hlt⟩ := h
  refine ⟨?_, by simp only [HandleStore.alloc_value]; omega⟩
  have hne : s.next_handle ≠ id := by omega
  simpa [HandleStore.alloc_value, assocLookup_insert_ne hne] using hnone

theorem retired_inc {s : HandleStore} {id : Nat} (h : Retired s id) (k : Nat) :
    Retired (s.inc_ref k).1 id := by
  obtain ⟨hnone, hlt⟩ := h
  cases hl : assocLookup k s.handles with
  | none => rw [inc_ref_none hl]; exact ⟨hnone, hlt⟩
  | some entry =>
    have hne : k ≠ id := by
      intro hk
      rw [hk, hnone] at hl
      cases hl
    rw [inc_ref_some hl]
    exact ⟨by rw [assocLookup_insert_ne hne]; exact hnone, hlt⟩

theorem retired_dec {s : HandleStore} {id : Nat} (h : Retired s id) (k : Nat) :
    Retired (s.dec_ref k).1 id := by
  obtain ⟨hnone, hlt⟩ := h
  cases hl : assocLookup k s.handles with
  | none => rw [dec_ref_none hl]; exact ⟨hnone, hlt⟩
  | some entry =>
    have hne : k ≠ id := by
      intro hk
      rw [hk, hnone] at hl
      cases hl
    by_cases h0 : entry.refs = 0
    · rw [dec_ref_zero hl h0]; exact ⟨hnone, hlt⟩
    · by_cases h1 : entry.refs - 1 = 0
      · rw [dec_ref_last hl h0 h1]
        exact ⟨by rw [assocLookup_erase_ne hne]; exact hnone, hlt⟩
      · rw [dec_ref_many hl h0 h1]
        exact ⟨by rw [assocLookup_insert_ne hne]; exact hnone, hlt⟩

theorem retired_reachFrom {t u : HandleStore} {id : Nat} (h : Retired t id)
    (hr : ReachFrom t u) : Retired u id := by
  induction hr with
  | refl => exact h
  | alloc w v _ ih => exact retired_alloc ih v
  | inc w k _ ih => exact retired_inc ih k
  | dec w k _ ih => exact retired_dec ih k

theorem retired_notFound {t : HandleStore} {id : Nat} (h : Retired t id) :
    t.inc_ref id = (t, .error ⟨.NotFound, some "handle not found"⟩) ∧
    t.dec_ref id = (t, .error ⟨.NotFound, some "handle not found"⟩) ∧
    t.inspect id = .error ⟨.NotFound, some "handle not found"⟩ ∧
    t.capsule_data id = .error ⟨.NotFound, some "handle not found"⟩ :=
  ⟨inc_ref_none h.1, dec_ref_none h.1,
    by simp [HandleStore.inspect, h.1], by simp [HandleStore.capsule_data, h.1]⟩

/-- C1 counterexample: on a freshly created context (`ContextInner::default()`,
whose `next_handle` counter starts at `AtomicU64::default() = 0`), the very
first `alloc_value` returns the handle id 0, and 0 is then a perfectly valid
handle of the store: `inspect 0` succeeds. -/
theorem claim1_counterexample :
    (HandleStore.default.alloc_value (.Int 5)).2 = 0 ∧
    (HandleStore.default.alloc_value (.Int 5)).1.inspect 0 = .ok ⟨.Int 5⟩ :=
  ⟨rfl, rfl⟩

/-- C1 (amended): `alloc_value` returns the current `next_handle` counter and
post-increments it, so ids are handed out consecutively starting from 0 on a
fresh context; on every reachable store the returned id is fresh (it has no
entry before the call), and after the call it maps to the new entry with
`refs = 1` — ids are unique and never reused while the context lives. -/
theorem claim1_alloc_fresh_monotone (s : HandleStore) (hs : Reachable s)
    (v : StoredValue) :
    (s.alloc_value v).2 = s.next_handle ∧
    assocLookup s.next_handle s.handles = none ∧
    (s.alloc_value v).1.next_handle = s.next_handle + 1 ∧
    assocLookup s.next_handle (s.alloc_value v).1.handles = some ⟨v, 1⟩ := by
  refine ⟨rfl, ?_, rfl, ?_⟩
  · cases hl : assocLookup s.next_handle s.handles with
    | none => rfl
    | some e =>
      have hmem := assocLookup_mem hl
      have := reachable_handlesBounded hs (s.next_handle, e) hmem
      omega
  · simp only [HandleStore.alloc_value]
    exact assocLookup_insert_self _ _ _

/-- C1 witness: the amended statement instantiated at the fresh store. -/
theorem claim1_witness :
    (HandleStore.default.alloc_value (.Int 7)).2 = HandleStore.default.next_handle ∧
    assocLookup HandleStore.default.next_handle HandleStore.default.handles = none ∧
    (HandleStore.default.alloc_value (.Int 7)).1.next_handle
      = HandleStore.default.next_handle + 1 ∧
    assocLookup HandleStore.default.next_handle
      (HandleStore.default.alloc_value (.Int 7)).1.handles = some ⟨.Int 7, 1⟩ :=
  claim1_alloc_fresh_monotone HandleStore.default ReachFrom.refl (.Int 7)

/-- C4: `dec_ref` on a missing id fails NotFound; on an entry whose refcount
is 0 it fails GeneralFailure; otherwise it decrements the refcount, and a
decrement to 0 removes the entry and retires the id — after that (and after
any further sequence of store operations, since a retired id is below the
monotone allocation counter and can never be handed out again) `inc_ref`,
`dec_ref`, `inspect` and `capsule_data` on the id all fail NotFound. -/
theorem claim4_dec_ref_spec (s : HandleStore) (id : Nat) :
    (assocLookup id s.handles = none →
      s.dec_ref id = (s, .error ⟨.NotFound, some "handle not found"⟩)) ∧
    (∀ e : HandleEntry, assocLookup id s.handles = some e → e.refs = 0 →
      s.dec_ref id = (s, .error ⟨.GeneralFailure, some "invalid refcount state"⟩)) ∧
    (∀ e : HandleEntry, assocLookup id s.handles = some e → 2 ≤ e.refs →
      (s.dec_ref id).2 = .ok () ∧
      assocLookup id (s.dec_ref id).1.handles = some ⟨e.value, e.refs - 1⟩) ∧
    (∀ e : HandleEntry, assocLookup id s.handles = some e → e.refs = 1 →
      Reachable s → (s.dec_ref id).2 = .ok () ∧ Retired (s.dec_ref id).1 id) ∧
    (∀ t u : HandleStore, Retired t id → ReachFrom t u → Retired u id) ∧
    (∀ t : HandleStore, Retired t id →
      t.inc_ref id = (t, .error ⟨.NotFound, some "handle not found"⟩) ∧
      t.dec_ref id = (t, .error ⟨.NotFound, some "handle not found"⟩) ∧
      t.inspect id = .error ⟨.NotFound, some "handle not found"⟩ ∧
      t.capsule_data id = .error ⟨.NotFound, some "handle not found"⟩) := by
  refine ⟨fun hl => dec_ref_none hl, ?_, ?_, ?_, ?_, ?_⟩
  · intro e hl h0
    exact dec_ref_zero hl h0
  · intro e hl h2
    have h0 : e.refs ≠ 0 := by omega
    have h1 : e.refs - 1 ≠ 0 := by omega
    rw [dec_ref_many hl h0 h1]
    exact ⟨rfl, assocLookup_insert_self _ _ _⟩
  · intro e hl h1 hs
    have h0 : e.refs ≠ 0 := by omega
    have h1' : e.refs - 1 = 0 := by omega
    rw [dec_ref_last hl h0 h1']
    refine ⟨rfl, assocLookup_erase_self _ _, ?_⟩
    exact reachable_handlesBounded hs (id, e) (assocLookup_mem hl)
  · intro t u hret hr
    exact retired_reachFrom hret hr
  · intro t hret
    exact retired_notFound hret

/-- C4 witness: allocate one handle on a fresh context (refcount 1), decrement
it to 0; the id is retired and a subsequent `inspect` fails NotFound. -/
theorem claim4_witness :
    ((HandleStore.default.alloc_value .Unit).1.dec_ref 0).2 = .ok () ∧
    Retired ((HandleStore.default.alloc_value .Unit).1.dec_ref 0).1 0 ∧
    ((HandleStore.default.alloc_value .Unit).1.dec_ref 0).1.inspect 0
      = .error ⟨.NotFound, some "handle not found"⟩ := by
  have A := claim4_dec_ref_spec (HandleStore.default.alloc_value .Unit).1 0
  have h1 := A.2.2.2.1 ⟨.Unit, 1⟩ rfl rfl (ReachFrom.alloc _ _ ReachFrom.refl)
  exact ⟨h1.1, h1.2, (A.2.2.2.2.2 _ h1.2).2.2.1⟩

theorem checkInstruction_none_iff (m : BytecodeModule) (f : Function) (idx : Nat)
    (i : Instruction) : checkInstruction m f idx i = none ↔ InstructionOk m f i := by
  cases i <;>
    simp [checkInstruction, InstructionOk, Option.isNone_iff_eq_none,
      List.getElem?_eq_none_iff, Nat.not_le]

theorem verifyFrom_ok_iff (m : BytecodeModule) (f : Function) (l : List Instruction) :
    ∀ idx : Nat, verifyFrom m f idx l = .ok () ↔ ∀ i ∈ l, InstructionOk m f i := by
  induction l with
  | nil => intro idx; simp [verifyFrom]
  | cons instr rest ih =>
    intro idx
    cases hc : checkInstruction m f idx instr with
    | some e =>
      have hnot : ¬ InstructionOk m f instr := by
        intro hok
        rw [← checkInstruction_none_iff m f idx instr] at hok
        rw [hok] at hc
        cases hc
      simp [verifyFrom, hc, List.forall_mem_cons, hnot]
    | none =>
      have hok := (checkInstruction_none_iff m f idx instr).mp hc
      simp [verifyFrom, hc, List.forall_mem_cons, hok, ih (idx + 1)]

theorem verifyFunctions_ok_iff (m : BytecodeModule) (fs : List Function) :
    verifyFunctions m fs = .ok () ↔
      ∀ f ∈ fs, ∀ i ∈ f.instructions, InstructionOk m f i := by
  induction fs with
  | nil => simp [verifyFunctions]
  | cons f rest ih =>
    cases hv : verifyFunction m f with
    | error e =>
      have hnot : ¬ ∀ i ∈ f.instructions, InstructionOk m f i := by
        intro hall
        have hok := (verifyFrom_ok_iff m f f.instructions 0).mpr hall
        rw [verifyFunction] at hv
        rw [hok] at hv
        cases hv
      simp [verifyFunctions, hv, List.forall_mem_cons, hnot]
    | ok u =>
      cases u
      have hall := (verifyFrom_ok_iff m f f.instructions 0).mp hv
      simp only [verifyFunctions, hv, List.forall_mem_cons, ih]
      exact ⟨fun hr => ⟨hall, hr⟩, fun h => h.2⟩

/-- C5: the verifier accepts a module exactly when every instruction of every
function satisfies the §4.F bounds (`LoadConst` within the constants list,
local indices below `locals`, `Call` to an existing function, jump targets
below the instruction count); and the §8 scenario-6 module — a sole function
of three instructions starting with `Jump(99)` — is rejected with `BadJump`
at instruction 0. -/
theorem claim5_verifier_iff :
    (∀ m : BytecodeModule, Verifier.verify m = .ok () ↔
      ∀ f ∈ m.functions, ∀ i ∈ f.instructions, InstructionOk m f i) ∧
    Verifier.verify jmpModule = .error (.BadJump 0) :=
  ⟨fun m => verifyFunctions_ok_iff m m.functions, rfl⟩

/-- C5 witness: the acceptance direction applied to a concrete in-bounds
module, and the concrete rejection. -/
theorem claim5_witness :
    Verifier.verify demoNoRet = .ok () ∧
    Verifier.verify jmpModule = .error (.BadJump 0) :=
  ⟨(claim5_verifier_iff.1 demoNoRet).mpr (by simp [demoNoRet, InstructionOk]),
    claim5_verifier_iff.2⟩

/-- C3: the instruction union contains the host-call opcodes
`CallHost(slot, argc)` and `CallHostDynamic(name_const_id, argc)` with the
stated operands, and a bytecode function stored in a module can hold them. -/
theorem claim3_callhost_opcodes (slot argc nameConst : Nat) :
    ∃ (f : Function) (m : BytecodeModule),
      m.functions = [f] ∧
      Instruction.CallHost slot argc ∈ f.instructions ∧
      Instruction.CallHostDynamic nameConst argc ∈ f.instructions := by
  refine ⟨⟨"host", 0, 0, [.CallHost slot argc, .CallHostDynamic nameConst argc]⟩,
    ⟨[], [], [⟨"host", 0, 0, [.CallHost slot argc, .CallHostDynamic nameConst argc]⟩]⟩,
    rfl, ?_, ?_⟩ <;> simp

theorem registerAll_cons (c : ContextInner) (e : KayExtension)
    (rest : List KayExtension) :
    registerAll c (e :: rest) = registerAll (c.register_extension e).1 rest := rfl

theorem register_extension_fresh {c : ContextInner} {e : KayExtension}
    (h : assocLookup e.name c.name_to_slot = none) :
    c.register_extension e =
      ({ c with
          extensions := c.extensions ++ [e],
          name_to_slot := assocInsert e.name c.extensions.length c.name_to_slot },
        .ok c.extensions.length) := by
  simp [ContextInner.register_extension, h]

theorem registerAll_lookup_preserved (exts : List KayExtension) :
    ∀ (c : ContextInner) (name : String), (∀ e ∈ exts, e.name ≠ name) →
      assocLookup name (registerAll c exts).name_to_slot
        = assocLookup name c.name_to_slot := by
  induction exts with
  | nil => intro c name _; rfl
  | cons e rest ih =>
    intro c name h
    have he : e.name ≠ name := h e (List.mem_cons_self _ _)
    have hrest : ∀ x ∈ rest, x.name ≠ name := fun x hx => h x (List.mem_cons_of_mem _ hx)
    rw [registerAll_cons, ih _ _ hrest]
    by_cases hdup : (assocLookup e.name c.name_to_slot).isSome
    · simp [ContextInner.register_extension, hdup]
    · simp [ContextInner.register_extension, hdup, assocLookup_insert_ne he]

theorem registerAll_spec (exts : List KayExtension) :
    ∀ c : ContextInner,
      (∀ e ∈ exts, assocLookup e.name c.name_to_slot = none) →
      (exts.map (fun e => e.name)).Nodup →
      (registerAll c exts).extensions = c.extensions ++ exts ∧
      ∀ i (hi : i < exts.length),
        assocLookup (exts.get ⟨i, hi⟩).name (registerAll c exts).name_to_slot
          = some (c.extensions.length + i) := by
  induction exts with
  | nil =>
    intro c _ _
    exact ⟨by simp [registerAll], fun i hi => absurd hi (by simp)⟩
  | cons e rest ih =>
    intro c hfresh hnodup
    have he : assocLookup e.name c.name_to_slot = none := hfresh e (List.mem_cons_self _ _)
    have hreg := register_extension_fresh he
    have hnodup2 := hnodup
    rw [List.map_cons, List.nodup_cons] at hnodup2
    obtain ⟨hnotin, hnodup'⟩ := hnodup2
    have hner : ∀ x ∈ rest, x.name ≠ e.name := by
      intro x hx hxe
      exact hnotin (hxe ▸ List.mem_map_of_mem _ hx)
    have hfresh' : ∀ x ∈ rest,
        assocLookup x.name (c.register_extension e).1.name_to_slot = none := by
      intro x hx
      rw [hreg]
      simp only
      rw [assocLookup_insert_ne (Ne.symm (hner x hx))]
      exact hfresh x (List.mem_cons_of_mem _ hx)
    obtain ⟨hext, hlook⟩ := ih (c.register_extension e).1 hfresh' hnodup'
    have hextlen : (c.register_extension e).1.extensions = c.extensions ++ [e] := by
      rw [hreg]
    constructor
    · rw [registerAll_cons, hext, hextlen, List.append_assoc, List.singleton_append]
    · intro i hi
      rw [registerAll_cons]
      match i with
      | 0 =>
        have hpres := registerAll_lookup_preserved rest (c.register_extension e).1
          e.name hner
        show assocLookup e.name (registerAll (c.register_extension e).1 rest).name_to_slot
          = some (c.extensions.length + 0)
        rw [hpres, hreg]
        simpa using assocLookup_insert_self e.name c.extensions.length c.name_to_slot
      | i + 1 =>
        have hi' : i < rest.length := by simpa using hi
        have := hlook i hi'
        rw [hextlen] at this
        simp only [List.length_append, List.length_singleton] at this
        show assocLookup (rest.get ⟨i, hi'⟩).name
          (registerAll (c.register_extension e).1 rest).name_to_slot
          = some (c.extensions.length + (i + 1))
        rw [this]
        congr 1
        omega

/-- C6: registering a list of descriptors with distinct names into a fresh
context assigns slots in registration order, and `extension_by_name` returns
exactly the slot assigned at registration time together with the descriptor;
registering a name that is already present fails `AlreadyExists` and leaves
the registry unchanged. -/
theorem claim6_registry_slots :
    (∀ exts : List KayExtension, (exts.map (fun e => e.name)).Nodup →
      ∀ i (hi : i < exts.length),
        (registerAll ContextInner.default exts).extension_by_name
          (exts.get ⟨i, hi⟩).name = .ok (i, exts.get ⟨i, hi⟩)) ∧
    (∀ (c : ContextInner) (ext : KayExtension),
      (assocLookup ext.name c.name_to_slot).isSome = true →
      c.register_extension ext = (c, .error ⟨.AlreadyExists, some ext.name⟩)) := by
  constructor
  · intro exts hnodup i hi
    have hfresh : ∀ e ∈ exts,
        assocLookup e.name ContextInner.default.name_to_slot = none := fun e _ => rfl
    obtain ⟨hext, hlook⟩ := registerAll_spec exts ContextInner.default hfresh hnodup
    have hl := hlook i hi
    have hz : ContextInner.default.extensions.length = 0 := rfl
    rw [hz, Nat.zero_add] at hl
    have hexts : (registerAll ContextInner.default exts).extensions = exts := by
      rw [hext]; rfl
    simp only [List.get_eq_getElem] at hl ⊢
    simp only [ContextInner.extension_by_name, hl, ContextInner.extension_by_slot, hexts,
      List.getElem?_eq_getElem hi]
  · intro c ext h
    simp [ContextInner.register_extension, h]

/-- C6 witness: registering `demoExt` into a fresh context puts it at slot 0,
`extension_by_name` finds it there, and a duplicate registration fails
`AlreadyExists` leaving the context unchanged. -/
theorem claim6_witness :
    (registerAll ContextInner.default [demoExt]).extension_by_name "demo.first"
      = .ok (0, demoExt) ∧
    (registerAll ContextInner.default [demoExt]).register_extension demoExt
      = (registerAll ContextInner.default [demoExt],
          .error ⟨.AlreadyExists, some "demo.first"⟩) := by
  have A := claim6_registry_slots
  refine ⟨A.1 [demoExt] (by simp) 0 (by decide), A.2 _ demoExt rfl⟩

theorem inc_ref_isSome (s : HandleStore) (h k : Nat) :
    (assocLookup k (s.inc_ref h).1.handles).isSome
      = (assocLookup k s.handles).isSome := by
  cases hl : assocLookup h s.handles with
  | none => rw [inc_ref_none hl]
  | some entry =>
    rw [inc_ref_some hl]
    by_cases hk : h = k
    · subst hk
      simp [assocLookup_insert_self, hl]
    · simp [assocLookup_insert_ne hk]

theorem cloneArgs_ok (raws : List Nat) :
    ∀ (s : HandleStore) (acc : List Nat),
      (∀ a ∈ raws, (assocLookup a s.handles).isSome = true) →
      ∃ s1, cloneArgs s acc raws = (s1, .ok (acc.reverse ++ raws)) := by
  induction raws with
  | nil => intro s acc _; exact ⟨s, by simp [cloneArgs]⟩
  | cons raw rest ih =>
    intro s acc hall
    have hr := hall raw (List.mem_cons_self _ _)
    obtain ⟨entry, hentry⟩ := Option.isSome_iff_exists.mp hr
    have hinc := inc_ref_some hentry
    have hall' : ∀ a ∈ rest,
        (assocLookup a (s.inc_ref raw).1.handles).isSome = true := by
      intro a ha
      rw [inc_ref_isSome]
      exact hall a (List.mem_cons_of_mem _ ha)
    obtain ⟨s1, hs1⟩ := ih (s.inc_ref raw).1 (raw :: acc) hall'
    refine ⟨s1, ?_⟩
    rw [hinc] at hs1
    simp only [cloneArgs, hinc]
    simpa using hs1

theorem call_host_gate {c : ContextInner} {ext : KayExtension} {slot : Nat}
    {args : List Nat} {err : KayError}
    (hext : c.extension_by_slot slot = .ok ext)
    (hargs : ∀ a ∈ args, (assocLookup a c.store.handles).isSome = true)
    (hgate : ∀ s : HandleStore, KayExtension.call ext s args = (s, .error err)) :
    (c.call_host slot args).2 = .error err := by
  obtain ⟨s1, hclone⟩ := cloneArgs_ok args c.store [] hargs
  have hclone' : cloneArgs c.store [] args = (s1, .ok args) := by simpa using hclone
  simp only [ContextInner.call_host, hext, ContextInner.invoke_extension, hclone',
    hgate s1]

/-- C7: a host call whose argument count violates the descriptor's arity
bounds (below `min_arity`, or above a set `max_arity`) surfaces an
InvalidArgument error through `call_host`, and the extension's callable is
never invoked: the arity gate `KayExtension::call` returns that very error
for every possible callable, i.e. its result does not depend on the callable
at all. -/
theorem claim7_arity_check (c : ContextInner) (slot : Nat) (ext : KayExtension)
    (args : List Nat)
    (hext : c.extension_by_slot slot = .ok ext)
    (hargs : ∀ a ∈ args, (assocLookup a c.store.handles).isSome = true)
    (hviol : args.length < ext.min_arity ∨
      ∃ mx, ext.max_arity = some mx ∧ mx < args.length) :
    ∃ msg : String,
      (c.call_host slot args).2 = .error ⟨.InvalidArgument, some msg⟩ ∧
      ∀ (s : HandleStore) (g : HandleStore → List Nat → HandleStore × Except KayError Nat),
        KayExtension.call { ext with callable := g } s args
          = (s, .error ⟨.InvalidArgument, some msg⟩) := by
  by_cases hmin : args.length < ext.min_arity
  · refine ⟨"expected at least " ++ toString ext.min_arity ++ " arguments", ?_, ?_⟩
    · exact call_host_gate hext hargs (fun s => by simp [KayExtension.call, hmin])
    · intro s g
      simp [KayExtension.call, hmin]
  · obtain ⟨mx, hmx, hgt⟩ := hviol.resolve_left hmin
    refine ⟨"expected at most " ++ toString mx ++ " arguments", ?_, ?_⟩
    · exact call_host_gate hext hargs
        (fun s => by simp [KayExtension.call, hmin, hmx, hgt])
    · intro s g
      simp [KayExtension.call, hmin, hmx, hgt]

/-- C7 witness: calling the two-argument extension `demoExt2` at slot 0 with
no arguments fails InvalidArgument, whatever the callable would have done. -/
theorem claim7_witness :
    ∃ msg : String,
      ((registerAll ContextInner.default [demoExt2]).call_host 0 []).2
        = .error ⟨.InvalidArgument, some msg⟩ ∧
      ∀ (s : HandleStore) (g : HandleStore → List Nat → HandleStore × Except KayError Nat),
        KayExtension.call { demoExt2 with callable := g } s []
          = (s, .error ⟨.InvalidArgument, some msg⟩) :=
  claim7_arity_check (registerAll ContextInner.default [demoExt2]) 0 demoExt2 []
    rfl (by simp) (Or.inl (by decide))

/-- C2 counterexample: the bridge round trip of the primitive VM value
`Str "hi"` does not come back equal to it — `ensure_handle` lifts it into a
string handle, and `handle_to_value` lowers a string handle to
`Handle(...)`, not to `Str`, and the two are unequal under the VM's value
equality. -/
theorem claim2_counterexample :
    (bridge_round_trip HandleStore.default (.Str "hi")).2 = .ok (.Handle 0) ∧
    valueEq (.Handle 0) (.Str "hi") = false ∧
    Value.Handle 0 ≠ Value.Str "hi" :=
  ⟨rfl, rfl, by decide⟩

/-- C2 (amended): lifting then lowering returns a value equal to the original
for the scalar primitives `Int`, `Bool` and `Unit`; a `Str` comes back as a
`Handle` wrapping a store entry that holds the same text (with one
reference), not as a `Str`. -/
theorem claim2_bridge_round_trip (s : HandleStore) (v : Value)
    (hprim : (∃ n, v = .Int n) ∨ (∃ b, v = .Bool b) ∨ v = .Unit) :
    ((bridge_round_trip s v).2 = .ok v ∧ valueEq v v = true) ∧
    ∀ str : String,
      (bridge_round_trip s (.Str str)).2 = .ok (.Handle s.next_handle) ∧
      assocLookup s.next_handle (bridge_round_trip s (.Str str)).1.handles
        = some ⟨.String str, 1⟩ := by
  constructor
  · rcases hprim with ⟨n, rfl⟩ | ⟨b, rfl⟩ | rfl <;>
      refine ⟨?_, ?_⟩ <;>
      simp [bridge_round_trip, Vm.ensure_handle, HandleStore.alloc_value,
        Vm.handle_to_value, HandleStore.inspect, assocLookup_insert_self,
        StoredValue.describe, valueEq]
  · intro str
    refine ⟨?_, ?_⟩ <;>
      simp [bridge_round_trip, Vm.ensure_handle, HandleStore.alloc_value,
        Vm.handle_to_value, HandleStore.inspect, assocLookup_insert_self,
        StoredValue.describe]

/-- C2 witness: the amended statement at `Int 42` on a fresh store. -/
theorem claim2_witness :
    (((bridge_round_trip HandleStore.default (.Int 42)).2 = .ok (.Int 42) ∧
      valueEq (.Int 42) (.Int 42) = true) ∧
    ∀ str : String,
      (bridge_round_trip HandleStore.default (.Str str)).2
        = .ok (.Handle HandleStore.default.next_handle) ∧
      assocLookup HandleStore.default.next_handle
        (bridge_round_trip HandleStore.default (.Str str)).1.handles
        = some ⟨.String str, 1⟩) :=
  claim2_bridge_round_trip HandleStore.default (.Int 42) (Or.inl ⟨42, rfl⟩)

/-- C9: with two `Int` operands on the stack, the `Add`, `Sub`, `Mul` and
`Neg` instructions of the VM push the two's-complement wrap-around result —
the unique value congruent to the exact result modulo `2^64` inside the
`i64` range (so the exact value whenever it does not overflow) — and `Div`
pushes the quotient truncated toward zero (`Int.tdiv`, sign of the operands
times the floored quotient of the magnitudes), trapping only on a zero
divisor or on `i64::MIN / -1`. -/
theorem claim9_int_arithmetic (m : BytecodeModule) (st : VmState) (frame : Frame)
    (rest : List Frame) (f : Function) (a b : Int) (tl : List Value)
    (hfr : st.frames = frame :: rest)
    (hfn : m.functions[frame.function]? = some f)
    (hstk : st.stack = .Int b :: .Int a :: tl) :
    (f.instructions[frame.ip]? = some .Add →
      Vm.step m st = .next { st with
        stack := .Int (wrap64 (a + b)) :: tl,
        frames := { frame with ip := frame.ip + 1 } :: rest }) ∧
    (f.instructions[frame.ip]? = some .Sub →
      Vm.step m st = .next { st with
        stack := .Int (wrap64 (a - b)) :: tl,
        frames := { frame with ip := frame.ip + 1 } :: rest }) ∧
    (f.instructions[frame.ip]? = some .Mul →
      Vm.step m st = .next { st with
        stack := .Int (wrap64 (a * b)) :: tl,
        frames := { frame with ip := frame.ip + 1 } :: rest }) ∧
    (f.instructions[frame.ip]? = some .Neg →
      Vm.step m st = .next { st with
        stack := .Int (wrap64 (-b)) :: .Int a :: tl,
        frames := { frame with ip := frame.ip + 1 } :: rest }) ∧
    (f.instructions[frame.ip]? = some .Div → b ≠ 0 → ¬(a = i64_min ∧ b = -1) →
      Vm.step m st = .next { st with
        stack := .Int (Int.tdiv a b) :: tl,
        frames := { frame with ip := frame.ip + 1 } :: rest }) ∧
    (∀ x : Int, i64_min ≤ wrap64 x ∧ wrap64 x < 2 ^ 63 ∧
      wrap64 x % 2 ^ 64 = x % 2 ^ 64) ∧
    (∀ x : Int, i64_min ≤ x → x < 2 ^ 63 → wrap64 x = x) ∧
    (∀ p q : Int, Int.tdiv p q
      = p.sign * q.sign * ((p.natAbs / q.natAbs : Nat) : Int)) := by
  obtain ⟨stack, frames, ctx⟩ := st
  simp only at hfr hstk
  subst hfr
  subst hstk
  refine ⟨?_, ?_, ?_, ?_, ?_, ?_, ?_, ?_⟩
  · intro hi
    simp [Vm.step, hfn, hi, binaryIntStep, value_as_int]
  · intro hi
    simp [Vm.step, hfn, hi, binaryIntStep, value_as_int]
  · intro hi
    simp [Vm.step, hfn, hi, binaryIntStep, value_as_int]
  · intro hi
    simp [Vm.step, hfn, hi, value_as_int]
  · intro hi hb hov
    simp [Vm.step, hfn, hi, divIntStep, value_as_int, hb, hov]
  · intro x
    refine ⟨?_, ?_, ?_⟩ <;> simp only [wrap64, i64_min] <;> omega
  · intro x h1 h2
    simp only [wrap64, i64_min] at h1 ⊢
    omega
  · intro p q
    obtain ⟨mm⟩ | ⟨mm⟩ := p <;> obtain ⟨nn⟩ | ⟨nn⟩ := q <;> cases mm <;> cases nn <;>
      simp [Int.tdiv, Int.sign, Int.natAbs, Int.negSucc_eq, Nat.succ_eq_add_one]

/-- C9 witness: `i64::MAX + 1` wraps to `i64::MIN`, and `-7 / 2` truncates
toward zero to `-3`. -/
theorem claim9_witness :
    Vm.step demoArithModule demoAddState
      = .next { demoAddState with
          stack := [.Int (wrap64 (2 ^ 63 - 1 + 1))],
          frames := [⟨0, 1, []⟩] } ∧
    wrap64 (2 ^ 63 - 1 + 1) = i64_min ∧
    Vm.step demoArithModule demoDivState
      = .next { demoDivState with
          stack := [.Int (Int.tdiv (-7) 2)],
          frames := [⟨1, 1, []⟩] } ∧
    Int.tdiv (-7) 2 = -3 := by
  have A := claim9_int_arithmetic demoArithModule demoAddState ⟨0, 0, []⟩ []
    ⟨"add", 0, 0, [.Add]⟩ (2 ^ 63 - 1) 1 [] rfl rfl rfl
  have B := claim9_int_arithmetic demoArithModule demoDivState ⟨1, 0, []⟩ []
    ⟨"div", 0, 0, [.Div]⟩ (-7) 2 [] rfl rfl rfl
  exact ⟨A.1 rfl, by decide, B.2.2.2.2.1 rfl (by decide) (by decide), by decide⟩

/-- C10: when the current frame's instruction pointer reaches the end of the
function's instruction list without a `Return`, the `Vm::run` loop aborts
with `BadFunction` instead of returning a value; the verifier does not
require a trailing `Return`, so this is reachable through the public
`run_module`: the verifier accepts `demoNoRet` and running it yields the
`BadFunction` error. -/
theorem claim10_end_of_function :
    (∀ (m : BytecodeModule) (st : VmState) (frame : Frame) (rest : List Frame)
        (f : Function),
      st.frames = frame :: rest →
      m.functions[frame.function]? = some f →
      f.instructions[frame.ip]? = none →
      Vm.step m st = .fault (.BadFunction frame.function)) ∧
    Verifier.verify demoNoRet = .ok () ∧
    run_module demoNoRet "main" ContextInner.default 5 = .fault (.BadFunction 0) := by
  refine ⟨?_, rfl, rfl⟩
  intro m st frame rest f hfr hfn hip
  obtain ⟨stack, frames, ctx⟩ := st
  simp only at hfr
  subst hfr
  simp [Vm.step, hfn, hip]

/-- C10 witness: the general statement instantiated at `demoNoRet` with the
instruction pointer one past the end. -/
theorem claim10_witness :
    Vm.step demoNoRet demoEndState = .fault (.BadFunction 0) :=
  claim10_end_of_function.1 demoNoRet demoEndState ⟨0, 1, []⟩ []
    ⟨"main", 0, 0, [.LoadConst 0]⟩ rfl rfl rfl

theorem decodeNat_encode (n : Nat) : decodeNat (.num (n : Int)) = some n := by
  simp [decodeNat]

theorem decodeConstant_encode (c : Constant) :
    decodeConstant (encodeConstant c) = some c := by
  cases c <;> rfl

theorem decodeInstruction_encode (i : Instruction) :
    decodeInstruction (encodeInstruction i) = some i := by
  cases i <;>
    simp [decodeInstruction, encodeInstruction, decodeInstructionTag,
      decodeInstructionField, decodeNatPair, decodeNat_encode]

theorem decodeList_encode {α : Type} (dec : Json → Option α) (enc : α → Json)
    (h : ∀ x, dec (enc x) = some x) :
    ∀ l : List α, decodeList dec (l.map enc) = some l := by
  intro l
  induction l with
  | nil => rfl
  | cons x rest ih => simp [decodeList, h x, ih]

theorem decodeGlobal_encode (g : Global) : decodeGlobal (encodeGlobal g) = some g := by
  cases g with
  | mk name value => simp [decodeGlobal, encodeGlobal, decodeNat_encode]

theorem decodeFunction_encode (f : Function) :
    decodeFunction (encodeFunction f) = some f := by
  cases f with
  | mk name params locals instrs =>
    simp [decodeFunction, encodeFunction, decodeNat_encode,
      decodeList_encode decodeInstruction encodeInstruction decodeInstruction_encode]

/-- C8: serialising a bytecode module and deserialising the result succeeds
and yields a structurally equal module — equal constants, globals, and
functions including their instructions. -/
theorem claim8_serialize_round_trip (m : BytecodeModule) :
    BytecodeModule.deserialize (BytecodeModule.serialize m) = some m := by
  cases m with
  | mk constants globals functions =>
    simp [BytecodeModule.serialize, BytecodeModule.deserialize,
      decodeList_encode decodeConstant encodeConstant decodeConstant_encode,
      decodeList_encode decodeGlobal encodeGlobal decodeGlobal_encode,
      decodeList_encode decodeFunction encodeFunction decodeFunction_encode]

end Kayton
